import Mathlib

/-!
Verification of the data-acquisition and graph-assembly pipeline of the
AI-startup relationship-graph repository.

The development shallowly embeds the TypeScript modules that the checked
claims are about:

* src/lib/types.ts        — the canonical data model (entities, edges, graph);
* src/lib/cache.ts        — the TTL cache (DataCache);
* src/lib/data.ts         — assembly of a validated dataset into a graph
                            (parseGraphData) and the zod semantic checks;
* src/lib/graph-utils.ts  — neighbor lookup (getNeighbors) and multi-criterion
                            filtering with edge-closure repair (filterGraph);
* src/lib/github-client.ts / src/lib/crunchbase-client.ts — the retrying
                            clients (retryRequest) and the pure record mappers.

JavaScript Date.now values, TTLs and ages are modelled as integers and passed
explicitly; JavaScript Map is modelled as an association list; exceptions are
modelled with Except; the statuses of HTTP responses as natural numbers.
-/

namespace StartupGraph

/-! ## Data model (src/lib/types.ts) -/

/-- Node types in the graph: the string union NodeType of types.ts. -/
inductive NodeType where
  | startup
  | person
deriving DecidableEq, Repr

/-- Edge/relationship types: the string union EdgeType of types.ts. -/
inductive EdgeType where
  | coFounded
  | worksAt
  | investsIn
deriving DecidableEq, Repr

/-- Company stage values: the string union CompanyStage of types.ts. -/
inductive CompanyStage where
  | idea
  | seed
  | seriesA
  | seriesB
  | seriesC
  | seriesD
  | growth
  | ipo
  | acquired
deriving DecidableEq, Repr

/-- Startup entity (types.ts interface Startup). -/
structure Startup where
  id : String
  name : String
  domainTags : List String
  stage : CompanyStage
  foundedYear : Nat
  location : String
  description : String
deriving DecidableEq, Repr

/-- Person entity (types.ts interface Person). -/
structure Person where
  id : String
  name : String
  roles : List String
  keywords : List String
  bio : String
deriving DecidableEq, Repr

/-- Relationship between entities (types.ts interface Edge). -/
structure Edge where
  sourceId : String
  targetId : String
  type : EdgeType
  sinceYear : Option Nat
deriving DecidableEq, Repr

/-- The canonical dataset exchanged between ingestion and caching
(types.ts interface SeedData). -/
structure SeedData where
  startups : List Startup
  people : List Person
  edges : List Edge
deriving DecidableEq, Repr

/-- The payload of a graph node: types.ts declares data as the union
Startup | Person, discriminated by the node type; following the tagged-union
reading of that discriminated pair, the type tag is derived from the payload. -/
inductive GraphNodeData where
  | startup (s : Startup)
  | person (p : Person)
deriving DecidableEq, Repr

/-- Graph node (types.ts interface GraphNode); the optional render-only
position is owned by the rendering layer and never read by the core, so it is
not part of the embedding. -/
structure GraphNode where
  id : String
  data : GraphNodeData
deriving DecidableEq, Repr

/-- The discriminator tag of a graph node. -/
def GraphNode.type (n : GraphNode) : NodeType :=
  match n.data with
  | .startup _ => .startup
  | .person _ => .person

/-- The name of the wrapped entity (node.data.name in the source). -/
def GraphNode.name (n : GraphNode) : String :=
  match n.data with
  | .startup s => s.name
  | .person p => p.name

/-- Graph edge (types.ts interface GraphEdge): a relationship with a
synthesized id, an optional display label and an optional sinceYear payload. -/
structure GraphEdge where
  id : String
  source : String
  target : String
  type : EdgeType
  label : Option String
  sinceYear : Option Nat
deriving DecidableEq, Repr

/-- Graph data: node list plus edge list (types.ts interface GraphData). -/
structure GraphData where
  nodes : List GraphNode
  edges : List GraphEdge
deriving DecidableEq, Repr

/-- Filter criteria (types.ts interface FilterCriteria); every field is
optional in the source, which the embedding renders with Option. -/
structure FilterCriteria where
  domainTags : Option (List String) := none
  stages : Option (List CompanyStage) := none
  searchTerm : Option String := none
deriving DecidableEq, Repr

/-! ## TTL cache (src/lib/cache.ts)

The DataCache class holds a Map from string keys to entries; Date.now is an
explicit `now` argument, and the mutation performed by an expired read is
returned as the new cache value. -/

/-- One cache entry: data plus write timestamp plus ttl (cache.ts
interface CacheEntry, instantiated at SeedData as in the source). -/
structure CacheEntry where
  data : SeedData
  timestamp : Int
  ttl : Int
deriving DecidableEq, Repr

/-- The private Map of DataCache, modelled as an association list. -/
abbrev CacheMap := List (String × CacheEntry)

/-- Map.get of the underlying JavaScript Map. -/
def mapGet (c : CacheMap) (key : String) : Option CacheEntry :=
  (c.find? (fun p => p.1 == key)).map (fun p => p.2)

/-- Map.delete of the underlying JavaScript Map. -/
def mapDelete (c : CacheMap) (key : String) : CacheMap :=
  c.filter (fun p => p.1 != key)

/-- DataCache.isExpired: a missing entry counts as expired; otherwise the age
now - timestamp is compared against the ttl (strictly greater). -/
def isExpired (c : CacheMap) (key : String) (now : Int) : Bool :=
  match mapGet c key with
  | none => true
  | some entry => decide (now - entry.timestamp > entry.ttl)

/-- DataCache.get: returns the cached data if present and unexpired; an
expired read deletes the entry (lazy eviction) and returns null. The returned
pair carries the read result and the cache state after the call. -/
def cacheGet (c : CacheMap) (key : String) (now : Int) :
    Option SeedData × CacheMap :=
  match mapGet c key with
  | none => (none, c)
  | some entry =>
    if isExpired c key now then
      (none, mapDelete c key)
    else
      (some entry.data, c)

/-- DataCache.set: unconditional overwrite with a fresh timestamp. -/
def cacheSet (c : CacheMap) (key : String) (d : SeedData) (now ttl : Int) :
    CacheMap :=
  mapDelete c key ++ [(key, ⟨d, now, ttl⟩)]

/-! ## Graph assembly (src/lib/data.ts)

parseGraphData walks the startups, then the people, threading the nodeIdSet
used for duplicate detection, and then the relationships, threading the same
set plus the edge counter. Thrown exceptions become Except.error. -/

/-- The startup node pushed by parseGraphData. -/
def mkStartupNode (s : Startup) : GraphNode :=
  { id := s.id, data := .startup s }

/-- The person node pushed by parseGraphData. -/
def mkPersonNode (p : Person) : GraphNode :=
  { id := p.id, data := .person p }

/-- The startup loop of parseGraphData: fails on an id already in the set,
otherwise records the id and pushes the node. Returns the grown id set
together with the nodes pushed by this loop, in input order. -/
def addStartupNodes : List Startup → List String →
    Except String (List String × List GraphNode)
  | [], seen => .ok (seen, [])
  | s :: rest, seen =>
    if seen.contains s.id then
      .error ("Duplicate node ID: " ++ s.id)
    else
      match addStartupNodes rest (s.id :: seen) with
      | .error msg => .error msg
      | .ok (seen2, ns) => .ok (seen2, mkStartupNode s :: ns)

/-- The person loop of parseGraphData, continuing with the id set left by the
startup loop. -/
def addPersonNodes : List Person → List String →
    Except String (List String × List GraphNode)
  | [], seen => .ok (seen, [])
  | p :: rest, seen =>
    if seen.contains p.id then
      .error ("Duplicate node ID: " ++ p.id)
    else
      match addPersonNodes rest (p.id :: seen) with
      | .error msg => .error msg
      | .ok (seen2, ns) => .ok (seen2, mkPersonNode p :: ns)

/-- The graph edge pushed for the relationship e with counter value k:
synthetic id edge-k, a display label only for the co-founded type, and a
sinceYear payload only when sinceYear is present (and nonzero, mirroring
JavaScript truthiness on the optional number). -/
def mkGraphEdge (e : Edge) (k : Nat) : GraphEdge :=
  { id := "edge-" ++ toString k
    source := e.sourceId
    target := e.targetId
    type := e.type
    label := if e.type == .coFounded then some "Co-founded" else none
    sinceYear :=
      match e.sinceYear with
      | some y => if y != 0 then some y else none
      | none => none }

/-- The relationship loop of parseGraphData: checks the source id and then
the target id against the node id set, failing fast on the first violation,
and numbers the surviving edges with the running counter. -/
def buildEdges : List Edge → List String → Nat →
    Except String (List GraphEdge)
  | [], _, _ => .ok []
  | e :: rest, seen, k =>
    if !(seen.contains e.sourceId) then
      .error ("Edge references unknown source node: " ++ e.sourceId)
    else if !(seen.contains e.targetId) then
      .error ("Edge references unknown target node: " ++ e.targetId)
    else
      match buildEdges rest seen (k + 1) with
      | .error msg => .error msg
      | .ok es => .ok (mkGraphEdge e k :: es)

/-- The closed form of the successful relationship loop: the k-numbered graph
edges in input order. -/
def numberEdges : List Edge → Nat → List GraphEdge
  | [], _ => []
  | e :: rest, k => mkGraphEdge e k :: numberEdges rest (k + 1)

/-- parseGraphData of data.ts: startup nodes, then person nodes, then edges,
with duplicate-id and dangling-reference detection. -/
def parseGraphData (seedData : SeedData) : Except String GraphData :=
  match addStartupNodes seedData.startups [] with
  | .error msg => .error msg
  | .ok (seen1, startupNodes) =>
    match addPersonNodes seedData.people seen1 with
    | .error msg => .error msg
    | .ok (seen2, personNodes) =>
      match buildEdges seedData.edges seen2 0 with
      | .error msg => .error msg
      | .ok graphEdges => .ok ⟨startupNodes ++ personNodes, graphEdges⟩

/-- The single id namespace shared by organizations and people: the ids of
the startups followed by the ids of the people, in listed order. -/
def allIds (d : SeedData) : List String :=
  d.startups.map Startup.id ++ d.people.map Person.id

/-- The zod semantic checks of data.ts that go beyond what the Lean types
already enforce: foundedYear and sinceYear bounded to [1900, 2100]. -/
def validYear (y : Nat) : Bool :=
  decide (1900 ≤ y) && decide (y ≤ 2100)

/-- validateData of data.ts, restricted to its semantic content: the
structural checks of the zod schemas are subsumed by the Lean types. -/
def validSeedData (d : SeedData) : Bool :=
  d.startups.all (fun s => validYear s.foundedYear)
  && d.edges.all (fun e =>
      match e.sinceYear with
      | some y => validYear y
      | none => true)

/-- Both endpoint ids of a relationship resolve in the dataset. -/
def refsOk (d : SeedData) (e : Edge) : Prop :=
  e.sourceId ∈ allIds d ∧ e.targetId ∈ allIds d

/-! ## JavaScript string primitives

String.toLowerCase, String.trim and String.includes are modelled on the
character lists backing the strings (the Lean library versions are
byte-position based and are avoided so that concrete instances evaluate). -/

/-- String.toLowerCase, character by character. -/
def jsToLower (s : String) : String :=
  ⟨s.data.map Char.toLower⟩

/-- String.trim: strip leading and trailing whitespace. -/
def jsTrim (s : String) : String :=
  ⟨((s.data.dropWhile Char.isWhitespace).reverse.dropWhile
      Char.isWhitespace).reverse⟩

/-- Whether the second list is a prefix of the first. -/
def startsWithList : List Char → List Char → Bool
  | [], _ => true
  | _ :: _, [] => false
  | p :: ps, c :: cs => p == c && startsWithList ps cs

/-- Whether the pattern occurs contiguously inside the list. -/
def containsSub : List Char → List Char → Bool
  | s, pattern =>
    match s with
    | [] => pattern.isEmpty
    | _ :: rest => startsWithList pattern s || containsSub rest pattern

/-- String.includes: substring containment. -/
def strIncludes (s pattern : String) : Bool :=
  containsSub s.data pattern.data

/-! ## Graph utilities (src/lib/graph-utils.ts) -/

/-- findNodeById of graph-utils.ts: the first node carrying the id. -/
def findNodeById (nodes : List GraphNode) (nodeId : String) : Option GraphNode :=
  nodes.find? (fun node => node.id == nodeId)

/-- Set.add of an insertion-ordered JavaScript Set of ids. -/
def insertId (ids : List String) (x : String) : List String :=
  if ids.contains x then ids else ids ++ [x]

/-- The connectedNodeIds set built by getNeighbors: for every edge touching
nodeId, the opposite endpoint (source checked first, as in the code). -/
def connectedIds (nodeId : String) (edges : List GraphEdge) : List String :=
  edges.foldl (fun acc edge =>
    if edge.source == nodeId then insertId acc edge.target
    else if edge.target == nodeId then insertId acc edge.source
    else acc) []

/-- getNeighbors of graph-utils.ts: the nodes whose id the connected-id set
holds. -/
def getNeighbors (nodeId : String) (nodes : List GraphNode)
    (edges : List GraphEdge) : List GraphNode :=
  nodes.filter (fun node => (connectedIds nodeId edges).contains node.id)

/-- The per-node predicate of the domain-tag pass of filterGraph: a startup
matching at least one requested tag; a person never matches. -/
def tagPred (tags : List String) (node : GraphNode) : Bool :=
  match node.data with
  | .startup s => tags.any (fun tag => s.domainTags.contains tag)
  | .person _ => false

/-- The per-node predicate of the stage pass of filterGraph. -/
def stagePred (stages : List CompanyStage) (node : GraphNode) : Bool :=
  match node.data with
  | .startup s => stages.contains s.stage
  | .person _ => false

/-- The per-node predicate of the search pass of filterGraph, applied to the
lower-cased trimmed term. -/
def searchPred (searchLower : String) (node : GraphNode) : Bool :=
  strIncludes (jsToLower node.name) searchLower

/-- The domain-tag pass: runs only when criteria.domainTags is present and
non-empty (JavaScript: the field is truthy and has positive length). -/
def filterByTags (criteria : FilterCriteria) (nodes : List GraphNode) :
    List GraphNode :=
  match criteria.domainTags with
  | some tags => if 0 < tags.length then nodes.filter (tagPred tags) else nodes
  | none => nodes

/-- The stage pass, same activation shape. -/
def filterByStages (criteria : FilterCriteria) (nodes : List GraphNode) :
    List GraphNode :=
  match criteria.stages with
  | some stages =>
    if 0 < stages.length then nodes.filter (stagePred stages) else nodes
  | none => nodes

/-- The search pass: runs only when the term is truthy and its trim is
non-empty; matches on the lower-cased, trimmed term. -/
def filterBySearch (criteria : FilterCriteria) (nodes : List GraphNode) :
    List GraphNode :=
  match criteria.searchTerm with
  | some term =>
    if 0 < (jsTrim term).length then
      nodes.filter (searchPred (jsTrim (jsToLower term)))
    else nodes
  | none => nodes

/-- One direction of the closure-repair collection: when the condition (the
near endpoint survived) holds, look up the far endpoint and record its id
when the node is a person. -/
def sideCollect (allNodes : List GraphNode) (cond : Bool) (endpoint : String)
    (acc : List String) : List String :=
  if cond then
    match findNodeById allNodes endpoint with
    | some node => if node.type == .person then insertId acc node.id else acc
    | none => acc
  else acc

/-- The per-edge body of the closure-repair collection: first the
surviving-source direction recording the target, then the surviving-target
direction recording the source, exactly as the two ifs of the loop. -/
def collectStep (allNodes : List GraphNode) (filteredIds : List String)
    (acc : List String) (edge : GraphEdge) : List String :=
  sideCollect allNodes (filteredIds.contains edge.target) edge.source
    (sideCollect allNodes (filteredIds.contains edge.source) edge.target acc)

/-- The closure-repair id collection of filterGraph: for each original edge
with a surviving endpoint, record the opposite endpoint when the node it
resolves to is a person, into one insertion-ordered set. -/
def collectConnected (allNodes : List GraphNode) (filteredIds : List String)
    (edges : List GraphEdge) : List String :=
  edges.foldl (collectStep allNodes filteredIds) []

/-- The push loop of the closure repair: append each collected node whose id
is not yet present among the filtered nodes. -/
def addPersons (allNodes : List GraphNode) :
    List String → List GraphNode → List GraphNode
  | [], acc => acc
  | pid :: rest, acc =>
    match findNodeById allNodes pid with
    | some node =>
      if (acc.find? (fun n => n.id == node.id)).isSome then
        addPersons allNodes rest acc
      else
        addPersons allNodes rest (acc ++ [node])
    | none => addPersons allNodes rest acc

/-- filterGraph of graph-utils.ts: the three sequential node passes, the edge
restriction, and — whenever a domain-tag or stage criterion is present (even
empty) — the closure-repair pass over the original edge list followed by a
fresh edge restriction. -/
def filterGraph (data : GraphData) (criteria : FilterCriteria) : GraphData :=
  let filteredNodes :=
    filterBySearch criteria (filterByStages criteria (filterByTags criteria data.nodes))
  let filteredNodeIds := filteredNodes.map GraphNode.id
  let filteredEdges := data.edges.filter (fun edge =>
    filteredNodeIds.contains edge.source && filteredNodeIds.contains edge.target)
  if criteria.domainTags.isSome || criteria.stages.isSome then
    let connectedPersonIds := collectConnected data.nodes filteredNodeIds data.edges
    let finalNodes := addPersons data.nodes connectedPersonIds filteredNodes
    let finalNodeIds := finalNodes.map GraphNode.id
    let finalEdges := data.edges.filter (fun edge =>
      finalNodeIds.contains edge.source && finalNodeIds.contains edge.target)
    ⟨finalNodes, finalEdges⟩
  else
    ⟨filteredNodes, filteredEdges⟩

/-- The effective domain-tag condition of one node: trivially true when the
tag criterion is inactive. -/
def tagGate (criteria : FilterCriteria) (node : GraphNode) : Bool :=
  match criteria.domainTags with
  | some tags => if 0 < tags.length then tagPred tags node else true
  | none => true

/-- The effective stage condition of one node. -/
def stageGate (criteria : FilterCriteria) (node : GraphNode) : Bool :=
  match criteria.stages with
  | some stages => if 0 < stages.length then stagePred stages node else true
  | none => true

/-- The effective search condition of one node. -/
def searchGate (criteria : FilterCriteria) (node : GraphNode) : Bool :=
  match criteria.searchTerm with
  | some term =>
    if 0 < (jsTrim term).length then
      searchPred (jsTrim (jsToLower term)) node
    else true
  | none => true

/-- The conjunction of the three pass predicates: the nodes the sequential
passes keep. -/
def nodeMatches (criteria : FilterCriteria) (node : GraphNode) : Bool :=
  tagGate criteria node && stageGate criteria node && searchGate criteria node

/-- The model of the per-edge contribution to the closure-repair set: the
near endpoint id survived the filter, and the far endpoint resolves to a
person node carrying the collected id. -/
abbrev personContrib (allNodes : List GraphNode) (filteredIds : List String)
    (e : GraphEdge) (x : String) : Prop :=
  (filteredIds.contains e.source = true
    ∧ ∃ t, findNodeById allNodes e.target = some t ∧ t.type = .person ∧ t.id = x)
  ∨ (filteredIds.contains e.target = true
    ∧ ∃ t, findNodeById allNodes e.source = some t ∧ t.type = .person ∧ t.id = x)

/-- Two ids joined by one edge of the list, in either direction. -/
abbrev adjacentVia (edges : List GraphEdge) (mId nId : String) : Prop :=
  ∃ e ∈ edges, (e.source = mId ∧ e.target = nId) ∨ (e.target = mId ∧ e.source = nId)

/-- The referential invariant of an assembled graph: both endpoints of every
edge are ids of nodes of the graph. -/
def edgesResolve (g : GraphData) : Prop :=
  ∀ e ∈ g.edges, e.source ∈ g.nodes.map GraphNode.id
    ∧ e.target ∈ g.nodes.map GraphNode.id

/-- A filter criteria value is empty when the tag and stage lists are absent
or empty and the search term is absent, empty, or whitespace-only. -/
def emptyCriteria (criteria : FilterCriteria) : Prop :=
  (criteria.domainTags = none ∨ criteria.domainTags = some [])
  ∧ (criteria.stages = none ∨ criteria.stages = some [])
  ∧ (criteria.searchTerm = none ∨ ∃ t, criteria.searchTerm = some t ∧ jsTrim t = "")

/-! ## Retrying clients (src/lib/github-client.ts, src/lib/crunchbase-client.ts)

retryRequest wraps an underlying request function. The i-th attempt (0-based)
is modelled by respond i; the parsed Retry-After hint of the i-th response by
retryAfterHdr i. The observable behaviour — attempt count, backoff sleeps and
final outcome — is collected in a trace. -/

/-- The outcome of one underlying request attempt: success, or a failure
carrying the HTTP response status when one exists (none models an error
without a response, such as a network failure). -/
inductive ReqOutcome where
  | success
  | failure (status : Option Nat)
deriving DecidableEq, Repr

/-- The observable behaviour of one retryRequest call: how many times the
underlying request ran, the backoff sleeps in milliseconds (in order, one
entry before each re-issued request), and the final outcome. -/
structure RetryTrace where
  attempts : Nat
  sleeps : List Nat
  result : ReqOutcome
deriving DecidableEq, Repr

/-- GitHubClient.retryRequest: once the budget is exhausted the error
propagates; a 404 propagates immediately without retrying; a 403 sleeps the
Retry-After hint (seconds, times 1000) and retries; a 5xx sleeps the
exponential backoff 2 ^ (maxRetries - retries) * 1000 ms and retries; any
other error propagates. retries is the remaining budget, equal to maxRetries
at the entry point. -/
def githubRetryRequest (respond : Nat → ReqOutcome) (retryAfterHdr : Nat → Nat)
    (maxRetries : Nat) : Nat → Nat → RetryTrace
  | retries, idx =>
    match respond idx, retries with
    | .success, _ => ⟨1, [], .success⟩
    | .failure st, 0 => ⟨1, [], .failure st⟩
    | .failure st, r + 1 =>
      if st = some 404 then
        ⟨1, [], .failure st⟩
      else if st = some 403 then
        let t := githubRetryRequest respond retryAfterHdr maxRetries r (idx + 1)
        ⟨t.attempts + 1, retryAfterHdr idx * 1000 :: t.sleeps, t.result⟩
      else
        match st with
        | some s =>
          if 500 ≤ s then
            let t := githubRetryRequest respond retryAfterHdr maxRetries r (idx + 1)
            ⟨t.attempts + 1, 2 ^ (maxRetries - (r + 1)) * 1000 :: t.sleeps, t.result⟩
          else ⟨1, [], .failure st⟩
        | none => ⟨1, [], .failure st⟩

/-- CrunchbaseClient.retryRequest: identical shape, except that the hinted
sleep handles status 429 and there is no explicit 404 branch — a 404 falls
through every retryable case and propagates immediately. -/
def crunchbaseRetryRequest (respond : Nat → ReqOutcome) (retryAfterHdr : Nat → Nat)
    (maxRetries : Nat) : Nat → Nat → RetryTrace
  | retries, idx =>
    match respond idx, retries with
    | .success, _ => ⟨1, [], .success⟩
    | .failure st, 0 => ⟨1, [], .failure st⟩
    | .failure st, r + 1 =>
      if st = some 429 then
        let t := crunchbaseRetryRequest respond retryAfterHdr maxRetries r (idx + 1)
        ⟨t.attempts + 1, retryAfterHdr idx * 1000 :: t.sleeps, t.result⟩
      else
        match st with
        | some s =>
          if 500 ≤ s then
            let t := crunchbaseRetryRequest respond retryAfterHdr maxRetries r (idx + 1)
            ⟨t.attempts + 1, 2 ^ (maxRetries - (r + 1)) * 1000 :: t.sleeps, t.result⟩
          else ⟨1, [], .failure st⟩
        | none => ⟨1, [], .failure st⟩

/-- The default retry budget of both clients: config.ts parses
CRUNCHBASE_MAX_RETRIES and GITHUB_MAX_RETRIES with the fallback string 3. -/
def configMaxRetries : Nat := 3

/-! ## Record mappers (crunchbase-client.ts, github-client.ts)

The mappers are pure record-to-record functions. Only the fields a mapper
reads are modelled on the source records; Date.now-derived current year is an
explicit argument; JavaScript falsiness of the empty string is rendered with
explicit emptiness tests on present fields. -/

/-- A wrapped categorical value of the Crunchbase API, the shape
Array<{ value: string }> elements. -/
structure ValueWrapper where
  value : String
deriving DecidableEq, Repr

/-- The properties of a Crunchbase organization record that
mapCrunchbaseToStartup reads; all are optional in the API shape. -/
structure CrunchbaseOrgProperties where
  name : Option String := none
  categories : Option (List ValueWrapper) := none
  funding_stage : Option String := none
  founded_on : Option String := none
  location_identifiers : Option (List ValueWrapper) := none
  short_description : Option String := none
deriving DecidableEq, Repr

/-- A Crunchbase organization record. -/
structure CrunchbaseOrganization where
  uuid : String
  properties : CrunchbaseOrgProperties
deriving DecidableEq, Repr

/-- The fields of a GitHub user record that mapGitHubToPerson reads (the
remaining fields of the API shape are never consulted by the mapper). -/
structure GitHubUser where
  login : String
  name : Option String := none
  company : Option String := none
  bio : Option String := none
deriving DecidableEq, Repr

/-- The stageMap lookup table of normalizeFundingStage. -/
def stageOfString (s : String) : Option CompanyStage :=
  if s = "idea" then some .idea
  else if s = "seed" then some .seed
  else if s = "series-a" then some .seriesA
  else if s = "series-b" then some .seriesB
  else if s = "series-c" then some .seriesC
  else if s = "series-d" then some .seriesD
  else if s = "growth" then some .growth
  else if s = "ipo" then some .ipo
  else if s = "acquired" then some .acquired
  else none

/-- normalizeFundingStage of crunchbase-client.ts: absent or empty input
defaults to seed; otherwise lower-case, underscore to hyphen, table lookup
with fallback seed. -/
def normalizeFundingStage (crunchbaseStage : Option String) : CompanyStage :=
  match crunchbaseStage with
  | none => .seed
  | some str =>
    if str = "" then .seed
    else
      let normalized : String :=
        ⟨(jsToLower str).data.map (fun c => if c == '_' then '-' else c)⟩
      (stageOfString normalized).getD .seed

/-- The decimal value of a digit run. -/
def digitsToNat (cs : List Char) : Nat :=
  cs.foldl (fun acc c => acc * 10 + (c.toNat - 48)) 0

/-- Modelled year extraction of new Date(s).getFullYear() for the ISO-format
date strings the API serves: the leading decimal digits of the string. -/
def dateYear (s : String) : Nat :=
  digitsToNat (s.data.takeWhile Char.isDigit)

/-- mapCrunchbaseToStartup of crunchbase-client.ts. currentYear stands for
new Date().getFullYear(), used when founded_on is absent or empty. -/
def mapCrunchbaseToStartup (currentYear : Nat)
    (org : CrunchbaseOrganization) : Startup :=
  { id := org.uuid
    name :=
      match org.properties.name with
      | some n => if n ≠ "" then n else "Unknown"
      | none => "Unknown"
    domainTags :=
      match org.properties.categories with
      | some cats => cats.map ValueWrapper.value
      | none => []
    stage := normalizeFundingStage org.properties.funding_stage
    foundedYear :=
      match org.properties.founded_on with
      | some d => if d ≠ "" then dateYear d else currentYear
      | none => currentYear
    location :=
      match org.properties.location_identifiers with
      | some locs =>
        let joined := String.intercalate ", " (locs.map ValueWrapper.value)
        if joined ≠ "" then joined else "Unknown"
      | none => "Unknown"
    description := (org.properties.short_description).getD "" }

/-- The split of a string at commas and whitespace (the regex [,\s]+ of the
source; runs of separators only differ from this by empty words, which the
length filter of the caller discards either way). -/
def splitOnPred (p : Char → Bool) : List Char → List (List Char)
  | [] => [[]]
  | c :: rest =>
    let r := splitOnPred p rest
    if p c then [] :: r
    else
      match r with
      | [] => [[c]]
      | w :: ws => (c :: w) :: ws

/-- The word list of the simple keyword extraction of mapGitHubToPerson. -/
def splitWords (s : String) : List String :=
  (splitOnPred (fun c => c == ',' || c.isWhitespace) s.data).map
    (fun l => (⟨l⟩ : String))

/-- JavaScript String.replace with a plain pattern replaces only the first
occurrence; here: drop the first occurrence of the character. -/
def removeFirstChar (c : Char) : List Char → List Char
  | [] => []
  | x :: xs => if x == c then xs else x :: removeFirstChar c xs

/-- mapGitHubToPerson of github-client.ts: keywords from the bio (words
longer than three characters, at most five) and the company (first @ sign
stripped), the Developer fallback, the login fallback for the name, and the
GitHub user login fallback for an absent or empty bio. -/
def mapGitHubToPerson (user : GitHubUser) : Person :=
  let bioKeywords :=
    match user.bio with
    | some b =>
      if b ≠ "" then ((splitWords b).filter (fun w => 3 < w.length)).take 5
      else []
    | none => []
  let companyKeywords :=
    match user.company with
    | some comp =>
      if comp ≠ "" then [(⟨removeFirstChar '@' comp.data⟩ : String)] else []
    | none => []
  let keywords := bioKeywords ++ companyKeywords
  { id := user.login
    name :=
      match user.name with
      | some n => if n ≠ "" then n else user.login
      | none => user.login
    roles := []
    keywords := if 0 < keywords.length then keywords else ["Developer"]
    bio :=
      match user.bio with
      | some b => if b ≠ "" then b else "GitHub user " ++ user.login
      | none => "GitHub user " ++ user.login }

/-! ## Concrete instances used by witnesses and counterexamples -/

/-- A concrete empty dataset, used by witnesses. -/
def emptySeed : SeedData := ⟨[], [], []⟩

/-- A concrete one-entry cache, used by witnesses. -/
def cache1 : CacheMap := [("graph-data", ⟨emptySeed, 0, 10⟩)]

/-- A concrete startup record. -/
def startupA : Startup :=
  ⟨"s1", "Acme AI", ["AI"], .seed, 2020, "SF", "vision models"⟩

/-- A concrete person record. -/
def personB : Person := ⟨"p1", "Bob", ["founder"], ["AI"], "builds things"⟩

/-- A concrete well-formed dataset: one startup, one person, one edge. -/
def seedW : SeedData :=
  ⟨[startupA], [personB], [⟨"p1", "s1", .coFounded, some 2020⟩]⟩

/-- A dataset in which a person reuses the id of a startup. -/
def dupSeed : SeedData :=
  ⟨[startupA], [⟨"s1", "Mallory", [], [], ""⟩], []⟩

/-- A duplicate-free dataset whose only relationship has a dangling source. -/
def dangSeed : SeedData :=
  ⟨[startupA], [], [⟨"ghost", "s1", .worksAt, none⟩]⟩

/-- The spec filter example, organization s1 with tags AI and ML. -/
def exS1 : Startup := ⟨"s1", "Startup One", ["AI", "ML"], .seed, 2020, "", ""⟩

/-- The spec filter example, organization s2 with tag Healthcare. -/
def exS2 : Startup := ⟨"s2", "Startup Two", ["Healthcare"], .seed, 2019, "", ""⟩

/-- The spec filter example, organization s3 with tag AI. -/
def exS3 : Startup := ⟨"s3", "Startup Three", ["AI"], .seriesA, 2021, "", ""⟩

/-- The spec filter example, person p1 (connected to s1). -/
def exP1 : Person := ⟨"p1", "Pat One", [], [], ""⟩

/-- The spec filter example, person p2 (connected to s2). -/
def exP2 : Person := ⟨"p2", "Pat Two", [], [], ""⟩

/-- The spec filter example graph: organizations s1, s2, s3 and people
p1 → s1, p2 → s2. -/
def exGraph : GraphData :=
  ⟨[⟨"s1", .startup exS1⟩, ⟨"s2", .startup exS2⟩, ⟨"s3", .startup exS3⟩,
    ⟨"p1", .person exP1⟩, ⟨"p2", .person exP2⟩],
   [⟨"e0", "p1", "s1", .coFounded, none, none⟩,
    ⟨"e1", "p2", "s2", .coFounded, none, none⟩]⟩

/-- An organization node whose name matches the search term acme. -/
def acmeNode : GraphNode :=
  ⟨"s9", .startup ⟨"s9", "Acme", ["AI"], .seed, 2020, "", ""⟩⟩

/-- A person node connected to the acme organization, name not matching. -/
def bobNode : GraphNode := ⟨"p9", .person ⟨"p9", "Bob", [], [], ""⟩⟩

/-- A two-node graph joining bob to acme. -/
def acmeGraph : GraphData :=
  ⟨[acmeNode, bobNode], [⟨"e0", "p9", "s9", .worksAt, none, none⟩]⟩

/-- A startup node with id a. -/
def soloA : GraphNode := ⟨"a", .startup ⟨"a", "A", [], .seed, 2020, "", ""⟩⟩

/-- A person node with id b. -/
def soloB : GraphNode := ⟨"b", .person ⟨"b", "B", [], [], ""⟩⟩

/-- One edge from id a to id b. -/
def soloEdges : List GraphEdge := [⟨"e0", "a", "b", .coFounded, none, none⟩]

/-- A Crunchbase organization record with every free-text field absent. -/
def orgNoText : CrunchbaseOrganization := ⟨"org-1", {}⟩

/-- A GitHub user record with name, company and bio absent. -/
def userNoBio : GitHubUser := ⟨"octo", none, none, none⟩

/-! ## Theorems about the TTL cache -/

/-- Claim C5: for every key, cacheGet returns absent exactly when the key is
not in the map or the entry age strictly exceeds its ttl; a get that finds an
expired entry removes that entry, an unexpired get leaves the cache unchanged,
and isExpired decides the very same age threshold (without mutating, as its
Bool-valued type shows). -/
theorem cache_get_absent_iff_missing_or_expired
    (c : CacheMap) (key : String) (now : Int) :
    ((cacheGet c key now).1 = none ↔
      (mapGet c key = none ∨
        ∃ e, mapGet c key = some e ∧ now - e.timestamp > e.ttl))
    ∧ (∀ e, mapGet c key = some e → now - e.timestamp > e.ttl →
        (cacheGet c key now).2 = mapDelete c key)
    ∧ (∀ e, mapGet c key = some e → ¬(now - e.timestamp > e.ttl) →
        (cacheGet c key now).2 = c)
    ∧ (isExpired c key now = true ↔
      (mapGet c key = none ∨
        ∃ e, mapGet c key = some e ∧ now - e.timestamp > e.ttl)) := by
  refine ⟨?_, ?_, ?_, ?_⟩
  · unfold cacheGet isExpired
    cases h : mapGet c key with
    | none => simp [h]
    | some e =>
      simp only [h]
      by_cases hexp : now - e.timestamp > e.ttl
      · simp [hexp, h]
      · simp [hexp, h]
  · intro e he hexp
    unfold cacheGet isExpired
    simp [he, hexp]
  · intro e he hexp
    unfold cacheGet isExpired
    simp [he, hexp]
  · unfold isExpired
    cases h : mapGet c key with
    | none => simp [h]
    | some e =>
      simp only [h]
      constructor
      · intro hd
        exact Or.inr ⟨e, rfl, by simpa using hd⟩
      · rintro (hc | ⟨e2, he2, hlt⟩)
        · cases hc
        · simp only [Option.some.injEq] at he2
          subst he2
          simpa using hlt

/-- Witness for C5: on a concrete cache holding one entry written at time 0
with ttl 10, a read at time 100 is absent, evicts the entry, and isExpired
agrees; a read at time 5 leaves the cache unchanged. -/
theorem cache_get_absent_iff_missing_or_expired_witness :
    (cacheGet cache1 "graph-data" 100).2 = mapDelete cache1 "graph-data"
    ∧ (cacheGet cache1 "graph-data" 5).2 = cache1
    ∧ isExpired cache1 "graph-data" 100 = true := by
  have h := cache_get_absent_iff_missing_or_expired cache1 "graph-data" 100
  have h5 := cache_get_absent_iff_missing_or_expired cache1 "graph-data" 5
  refine ⟨h.2.1 ⟨emptySeed, 0, 10⟩ (by decide) (by decide),
          h5.2.2.1 ⟨emptySeed, 0, 10⟩ (by decide) (by decide),
          (h.2.2.2).2 (Or.inr ⟨⟨emptySeed, 0, 10⟩, by decide, by decide⟩)⟩

/-- Claim C10: isExpired reports true for a key that has no entry in the map
(never written or already removed), even though no timestamp exists for it. -/
theorem isExpired_true_of_missing
    (c : CacheMap) (key : String) (now : Int)
    (h : mapGet c key = none) :
    isExpired c key now = true := by
  unfold isExpired
  simp [h]

/-- Witness for C10: the empty cache reports every key as expired. -/
theorem isExpired_true_of_missing_witness :
    isExpired ([] : CacheMap) "graph-data" 42 = true :=
  isExpired_true_of_missing [] "graph-data" 42 (by decide)

/-! ## Theorems about graph assembly -/

/-- List.contains agrees with membership (on strings). -/
theorem list_contains_iff_mem {l : List String} {a : String} :
    l.contains a = true ↔ a ∈ l := by
  exact List.elem_iff

/-- The startup loop succeeds when the startup ids are fresh and mutually
distinct, returning the ids pushed onto the set and the nodes in order. -/
theorem addStartupNodes_ok (startups : List Startup) (seen : List String)
    (hdisj : ∀ s ∈ startups, s.id ∉ seen)
    (hnodup : (startups.map Startup.id).Nodup) :
    addStartupNodes startups seen =
      .ok ((startups.map Startup.id).reverse ++ seen,
           startups.map mkStartupNode) := by
  induction startups generalizing seen with
  | nil => simp [addStartupNodes]
  | cons s rest ih =>
    have hs : s.id ∉ seen := hdisj s (by simp)
    have hcont : seen.contains s.id = false := by
      cases h : seen.contains s.id with
      | false => rfl
      | true => exact absurd (list_contains_iff_mem.mp h) hs
    simp only [List.map_cons, List.nodup_cons] at hnodup
    have hrec := ih (s.id :: seen)
      (by
        intro t ht
        simp only [List.mem_cons]
        rintro (h | h)
        · exact hnodup.1 (h ▸ List.mem_map_of_mem Startup.id ht)
        · exact hdisj t (List.mem_cons_of_mem s ht) h)
      hnodup.2
    simp only [addStartupNodes, hcont, Bool.false_eq_true, if_false, hrec]
    simp [List.reverse_cons, List.append_assoc]

/-- The person loop succeeds under the same freshness conditions. -/
theorem addPersonNodes_ok (people : List Person) (seen : List String)
    (hdisj : ∀ p ∈ people, p.id ∉ seen)
    (hnodup : (people.map Person.id).Nodup) :
    addPersonNodes people seen =
      .ok ((people.map Person.id).reverse ++ seen,
           people.map mkPersonNode) := by
  induction people generalizing seen with
  | nil => simp [addPersonNodes]
  | cons p rest ih =>
    have hp : p.id ∉ seen := hdisj p (by simp)
    have hcont : seen.contains p.id = false := by
      cases h : seen.contains p.id with
      | false => rfl
      | true => exact absurd (list_contains_iff_mem.mp h) hp
    simp only [List.map_cons, List.nodup_cons] at hnodup
    have hrec := ih (p.id :: seen)
      (by
        intro t ht
        simp only [List.mem_cons]
        rintro (h | h)
        · exact hnodup.1 (h ▸ List.mem_map_of_mem Person.id ht)
        · exact hdisj t (List.mem_cons_of_mem p ht) h)
      hnodup.2
    simp only [addPersonNodes, hcont, Bool.false_eq_true, if_false, hrec]
    simp [List.reverse_cons, List.append_assoc]

/-- The startup loop fails with a duplicate-id error whenever the set union
of the ids seen so far and the incoming ids has a repeat. -/
theorem addStartupNodes_error (startups : List Startup) (seen : List String)
    (hseen : seen.Nodup)
    (hbad : ¬ (seen ++ startups.map Startup.id).Nodup) :
    ∃ x, 2 ≤ (seen ++ startups.map Startup.id).count x ∧
      addStartupNodes startups seen = .error ("Duplicate node ID: " ++ x) := by
  induction startups generalizing seen with
  | nil => exact absurd (by simpa using hseen) hbad
  | cons s rest ih =>
    by_cases hs : s.id ∈ seen
    · refine ⟨s.id, ?_, ?_⟩
      · have h1 : 1 ≤ seen.count s.id := List.one_le_count_iff.mpr hs
        have h2 : 1 ≤ (s.id :: rest.map Startup.id).count s.id := by
          rw [List.count_cons_self]
          omega
        calc 2 ≤ seen.count s.id + (s.id :: rest.map Startup.id).count s.id := by omega
          _ = (seen ++ (s :: rest).map Startup.id).count s.id := by
              simp [List.count_append]
      · have hcont : seen.contains s.id = true := list_contains_iff_mem.mpr hs
        unfold addStartupNodes
        rw [hcont]
        simp
    · have hcont : seen.contains s.id = false := by
        cases h : seen.contains s.id with
        | false => rfl
        | true => exact absurd (list_contains_iff_mem.mp h) hs
      have hperm : List.Perm (seen ++ (s :: rest).map Startup.id)
          ((s.id :: seen) ++ rest.map Startup.id) := by
        exact List.perm_middle
      have hbad2 : ¬ ((s.id :: seen) ++ rest.map Startup.id).Nodup := by
        intro h
        exact hbad (hperm.nodup_iff.mpr h)
      obtain ⟨x, hx, herr⟩ := ih (s.id :: seen) (by simp [hseen, hs]) hbad2
      refine ⟨x, ?_, ?_⟩
      · calc 2 ≤ ((s.id :: seen) ++ rest.map Startup.id).count x := hx
          _ = (seen ++ (s :: rest).map Startup.id).count x :=
            (hperm.count_eq x).symm
      · unfold addStartupNodes
        rw [hcont, herr]
        simp

/-- The person loop fails with a duplicate-id error whenever the set union of
the ids seen so far and the incoming ids has a repeat. -/
theorem addPersonNodes_error (people : List Person) (seen : List String)
    (hseen : seen.Nodup)
    (hbad : ¬ (seen ++ people.map Person.id).Nodup) :
    ∃ x, 2 ≤ (seen ++ people.map Person.id).count x ∧
      addPersonNodes people seen = .error ("Duplicate node ID: " ++ x) := by
  induction people generalizing seen with
  | nil => exact absurd (by simpa using hseen) hbad
  | cons p rest ih =>
    by_cases hp : p.id ∈ seen
    · refine ⟨p.id, ?_, ?_⟩
      · have h1 : 1 ≤ seen.count p.id := List.one_le_count_iff.mpr hp
        have h2 : 1 ≤ (p.id :: rest.map Person.id).count p.id := by
          rw [List.count_cons_self]
          omega
        calc 2 ≤ seen.count p.id + (p.id :: rest.map Person.id).count p.id := by omega
          _ = (seen ++ (p :: rest).map Person.id).count p.id := by
              simp [List.count_append]
      · have hcont : seen.contains p.id = true := list_contains_iff_mem.mpr hp
        unfold addPersonNodes
        rw [hcont]
        simp
    · have hcont : seen.contains p.id = false := by
        cases h : seen.contains p.id with
        | false => rfl
        | true => exact absurd (list_contains_iff_mem.mp h) hp
      have hperm : List.Perm (seen ++ (p :: rest).map Person.id)
          ((p.id :: seen) ++ rest.map Person.id) := by
        exact List.perm_middle
      have hbad2 : ¬ ((p.id :: seen) ++ rest.map Person.id).Nodup := by
        intro h
        exact hbad (hperm.nodup_iff.mpr h)
      obtain ⟨x, hx, herr⟩ := ih (p.id :: seen) (by simp [hseen, hp]) hbad2
      refine ⟨x, ?_, ?_⟩
      · calc 2 ≤ ((p.id :: seen) ++ rest.map Person.id).count x := hx
          _ = (seen ++ (p :: rest).map Person.id).count x :=
            (hperm.count_eq x).symm
      · unfold addPersonNodes
        rw [hcont, herr]
        simp

/-- The relationship loop succeeds when every endpoint id resolves, producing
the k-numbered edges in input order. -/
theorem buildEdges_ok (edges : List Edge) (seen : List String)
    (h : ∀ e ∈ edges, e.sourceId ∈ seen ∧ e.targetId ∈ seen) :
    ∀ k : Nat, buildEdges edges seen k = .ok (numberEdges edges k) := by
  induction edges with
  | nil => intro k; simp [buildEdges, numberEdges]
  | cons e rest ih =>
    intro k
    have hsrc : seen.contains e.sourceId = true :=
      list_contains_iff_mem.mpr (h e (by simp)).1
    have htgt : seen.contains e.targetId = true :=
      list_contains_iff_mem.mpr (h e (by simp)).2
    have hrec := ih (fun e2 he2 => h e2 (List.mem_cons_of_mem e he2)) (k + 1)
    unfold buildEdges
    rw [hsrc, htgt, hrec]
    simp [numberEdges]

/-- Length of the numbered edge list. -/
theorem numberEdges_length (edges : List Edge) :
    ∀ k : Nat, (numberEdges edges k).length = edges.length := by
  induction edges with
  | nil => intro k; simp [numberEdges]
  | cons e rest ih => intro k; simp [numberEdges, ih]

/-- The i-th numbered edge is the i-th relationship stamped with counter
value k + i. -/
theorem numberEdges_get (edges : List Edge) :
    ∀ (k i : Nat) (h : i < (numberEdges edges k).length)
      (h2 : i < edges.length),
    (numberEdges edges k).get ⟨i, h⟩ = mkGraphEdge (edges.get ⟨i, h2⟩) (k + i) := by
  induction edges with
  | nil => intro k i h h2; exact absurd h2 (by simp)
  | cons e rest ih =>
    intro k i h h2
    cases i with
    | zero => simp [numberEdges]
    | succ j =>
      have hj : j < (numberEdges rest (k + 1)).length := by
        rw [numberEdges_length]
        simpa using h2
      have hj2 : j < rest.length := by simpa using h2
      have := ih (k + 1) j hj hj2
      simp only [numberEdges, List.get_cons_succ]
      rw [this]
      congr 1
      omega

/-- The relationship loop fails fast: if every relationship before index j
resolves and the one at j does not, the loop reports exactly the failure of
the edge at j, source checked before target. -/
theorem buildEdges_error_first (edges : List Edge) (seen : List String) :
    ∀ (k j : Nat) (hj : j < edges.length),
    (∀ (i : Nat) (hi : i < edges.length), i < j →
      (edges.get ⟨i, hi⟩).sourceId ∈ seen ∧ (edges.get ⟨i, hi⟩).targetId ∈ seen) →
    ((edges.get ⟨j, hj⟩).sourceId ∉ seen →
      buildEdges edges seen k =
        .error ("Edge references unknown source node: " ++ (edges.get ⟨j, hj⟩).sourceId))
    ∧ ((edges.get ⟨j, hj⟩).sourceId ∈ seen →
       (edges.get ⟨j, hj⟩).targetId ∉ seen →
      buildEdges edges seen k =
        .error ("Edge references unknown target node: " ++ (edges.get ⟨j, hj⟩).targetId)) := by
  induction edges with
  | nil =>
    intro k j hj
    exact absurd hj (by simp)
  | cons e rest ih =>
    intro k j hj hpre
    cases j with
    | zero =>
      constructor
      · intro hsrc
        have hcont : seen.contains e.sourceId = false := by
          cases hc : seen.contains e.sourceId with
          | false => rfl
          | true => exact absurd (list_contains_iff_mem.mp hc) (by simpa using hsrc)
        unfold buildEdges
        rw [hcont]
        simp
      · intro hsrc htgt
        have hcs : seen.contains e.sourceId = true :=
          list_contains_iff_mem.mpr (by simpa using hsrc)
        have hct : seen.contains e.targetId = false := by
          cases hc : seen.contains e.targetId with
          | false => rfl
          | true => exact absurd (list_contains_iff_mem.mp hc) (by simpa using htgt)
        unfold buildEdges
        rw [hcs, hct]
        simp
    | succ j2 =>
      have h0 := hpre 0 (by simp) (Nat.succ_pos j2)
      have hcs : seen.contains e.sourceId = true :=
        list_contains_iff_mem.mpr (by simpa using h0.1)
      have hct : seen.contains e.targetId = true :=
        list_contains_iff_mem.mpr (by simpa using h0.2)
      have hj2 : j2 < rest.length := by simpa using hj
      have hpre2 : ∀ (i : Nat) (hi : i < rest.length), i < j2 →
          (rest.get ⟨i, hi⟩).sourceId ∈ seen ∧ (rest.get ⟨i, hi⟩).targetId ∈ seen := by
        intro i hi hilt
        have := hpre (i + 1) (by simpa using hi) (by omega)
        simpa using this
      have hres := ih (k + 1) j2 hj2 hpre2
      constructor
      · intro hsrc
        have h1 := hres.1 (by simpa using hsrc)
        unfold buildEdges
        rw [hcs, hct, h1]
        simp
      · intro hsrc htgt
        have h1 := hres.2 (by simpa using hsrc) (by simpa using htgt)
        unfold buildEdges
        rw [hcs, hct, h1]
        simp

/-- The node id set after both node loops holds exactly the dataset ids. -/
theorem mem_seenAll_iff (d : SeedData) (x : String) :
    x ∈ (d.people.map Person.id).reverse ++
        ((d.startups.map Startup.id).reverse ++ []) ↔ x ∈ allIds d := by
  simp only [allIds, List.append_nil, List.mem_append, List.mem_reverse]
  tauto

/-- Claim C2: on a validated dataset with distinct ids and resolving
relationship references, parseGraphData succeeds with one node per startup
and per person, one graph edge per relationship, the k-th edge carrying the
synthetic id edge-k in input order, and a display label exactly on the
co-founded type. -/
theorem parse_assembles_counts_ids_and_labels (d : SeedData)
    (hvalid : validSeedData d = true)
    (hnodup : (allIds d).Nodup)
    (hrefs : ∀ e ∈ d.edges, refsOk d e) :
    ∃ g, parseGraphData d = .ok g
      ∧ g.nodes.length = d.startups.length + d.people.length
      ∧ g.edges.length = d.edges.length
      ∧ ∀ (k : Nat) (hk : k < g.edges.length) (hk2 : k < d.edges.length),
          (g.edges.get ⟨k, hk⟩).id = "edge-" ++ toString k
          ∧ ((g.edges.get ⟨k, hk⟩).label.isSome ↔
              (d.edges.get ⟨k, hk2⟩).type = EdgeType.coFounded) := by
  have hSP : (d.startups.map Startup.id).Nodup ∧ (d.people.map Person.id).Nodup
      ∧ (d.startups.map Startup.id).Disjoint (d.people.map Person.id) := by
    rw [allIds, List.nodup_append] at hnodup
    exact hnodup
  have h1 := addStartupNodes_ok d.startups [] (by simp) hSP.1
  have h2 := addPersonNodes_ok d.people ((d.startups.map Startup.id).reverse ++ [])
    (by
      intro p hp hmem
      simp only [List.append_nil, List.mem_reverse] at hmem
      exact hSP.2.2 hmem (List.mem_map_of_mem Person.id hp))
    hSP.2.1
  have h3 := buildEdges_ok d.edges
    ((d.people.map Person.id).reverse ++ ((d.startups.map Startup.id).reverse ++ []))
    (by
      intro e he
      have hr := hrefs e he
      exact ⟨(mem_seenAll_iff d e.sourceId).mpr hr.1,
             (mem_seenAll_iff d e.targetId).mpr hr.2⟩)
    0
  refine ⟨⟨d.startups.map mkStartupNode ++ d.people.map mkPersonNode,
           numberEdges d.edges 0⟩, ?_, ?_, ?_, ?_⟩
  · simp only [parseGraphData, h1, h2, h3]
  · simp
  · simp [numberEdges_length]
  · intro k hk hk2
    constructor
    · rw [numberEdges_get d.edges 0 k hk hk2]
      simp [mkGraphEdge]
    · rw [numberEdges_get d.edges 0 k hk hk2]
      simp only [List.get_eq_getElem]
      cases h : d.edges[k].type <;> simp [mkGraphEdge, h]

/-- Witness for C2: on the concrete one-startup, one-person, one-edge
dataset, assembly succeeds with two nodes and one edge named edge-0 and
labelled (its type being co-founded). -/
theorem parse_assembles_counts_ids_and_labels_witness :
    validSeedData seedW = true ∧ (allIds seedW).Nodup
    ∧ (∀ e ∈ seedW.edges, refsOk seedW e)
    ∧ ∃ g, parseGraphData seedW = .ok g
        ∧ g.nodes.length = 2 ∧ g.edges.length = 1 := by
  obtain ⟨g, hg, hn, he, _⟩ :=
    parse_assembles_counts_ids_and_labels seedW (by decide) (by decide)
      (by
        intro e hmem
        constructor <;> · simp only [seedW] at hmem; fin_cases hmem <;> decide)
  refine ⟨by decide, by decide, ?_, g, hg, ?_, ?_⟩
  · intro e hmem
    constructor <;> · simp only [seedW] at hmem; fin_cases hmem <;> decide
  · simpa [seedW] using hn
  · simpa [seedW] using he

/-- Claim C3: parseGraphData fails with a duplicate-id error naming a twice
occurring id whenever the id namespace has a repeat; on a duplicate-free
dataset it fails on the first relationship (in input order) with a dangling
endpoint, reporting unknown source when the source does not resolve and
otherwise unknown target, naming the offending id. -/
theorem parse_fails_fast_on_duplicates_and_dangling :
    (∀ d : SeedData, ¬ (allIds d).Nodup →
      ∃ x, 2 ≤ (allIds d).count x ∧
        parseGraphData d = .error ("Duplicate node ID: " ++ x))
    ∧ (∀ (d : SeedData) (k : Nat) (hk : k < d.edges.length),
        (allIds d).Nodup →
        (∀ (j : Nat) (hj : j < d.edges.length), j < k →
          refsOk d (d.edges.get ⟨j, hj⟩)) →
        ((d.edges.get ⟨k, hk⟩).sourceId ∉ allIds d →
          parseGraphData d = .error
            ("Edge references unknown source node: " ++ (d.edges.get ⟨k, hk⟩).sourceId))
        ∧ ((d.edges.get ⟨k, hk⟩).sourceId ∈ allIds d →
           (d.edges.get ⟨k, hk⟩).targetId ∉ allIds d →
          parseGraphData d = .error
            ("Edge references unknown target node: " ++ (d.edges.get ⟨k, hk⟩).targetId))) := by
  constructor
  · intro d hbad
    by_cases hS : (d.startups.map Startup.id).Nodup
    · have h1 := addStartupNodes_ok d.startups [] (by simp) hS
      have hperm : List.Perm
          (((d.startups.map Startup.id).reverse ++ []) ++ d.people.map Person.id)
          (allIds d) := by
        rw [allIds, List.append_nil]
        exact (List.reverse_perm (d.startups.map Startup.id)).append_right _
      have hbad2 : ¬ (((d.startups.map Startup.id).reverse ++ []) ++
          d.people.map Person.id).Nodup := by
        intro h
        exact hbad (hperm.nodup_iff.mp h)
      obtain ⟨x, hc, herr⟩ := addPersonNodes_error d.people
        ((d.startups.map Startup.id).reverse ++ []) (by simp [hS]) hbad2
      refine ⟨x, ?_, ?_⟩
      · calc 2 ≤ (((d.startups.map Startup.id).reverse ++ []) ++
              d.people.map Person.id).count x := hc
          _ = (allIds d).count x := hperm.count_eq x
      · simp only [parseGraphData, h1, herr]
    · obtain ⟨x, hc, herr⟩ := addStartupNodes_error d.startups []
        List.nodup_nil (by simpa using hS)
      refine ⟨x, ?_, ?_⟩
      · have hc2 : 2 ≤ (d.startups.map Startup.id).count x := by simpa using hc
        have : (allIds d).count x =
            (d.startups.map Startup.id).count x + (d.people.map Person.id).count x := by
          simp [allIds, List.count_append]
        omega
      · simp only [parseGraphData, herr]
  · intro d k hk hnodup hpre
    have hSP : (d.startups.map Startup.id).Nodup ∧ (d.people.map Person.id).Nodup
        ∧ (d.startups.map Startup.id).Disjoint (d.people.map Person.id) := by
      rw [allIds, List.nodup_append] at hnodup
      exact hnodup
    have h1 := addStartupNodes_ok d.startups [] (by simp) hSP.1
    have h2 := addPersonNodes_ok d.people ((d.startups.map Startup.id).reverse ++ [])
      (by
        intro p hp hmem
        simp only [List.append_nil, List.mem_reverse] at hmem
        exact hSP.2.2 hmem (List.mem_map_of_mem Person.id hp))
      hSP.2.1
    have hbe := buildEdges_error_first d.edges
      ((d.people.map Person.id).reverse ++ ((d.startups.map Startup.id).reverse ++ []))
      0 k hk
      (by
        intro i hi hik
        have hr := hpre i hi hik
        exact ⟨(mem_seenAll_iff d _).mpr hr.1, (mem_seenAll_iff d _).mpr hr.2⟩)
    constructor
    · intro hsrc
      have herr := hbe.1 (fun hmem => hsrc ((mem_seenAll_iff d _).mp hmem))
      simp only [parseGraphData, h1, h2, herr]
    · intro hsrc htgt
      have herr := hbe.2 ((mem_seenAll_iff d _).mpr hsrc)
        (fun hmem => htgt ((mem_seenAll_iff d _).mp hmem))
      simp only [parseGraphData, h1, h2, herr]

/-! ## Theorems about the retrying clients -/

/-- Under a persistently 5xx-failing request function the GitHub client
makes r + 1 attempts, sleeping the doubling backoff before each retry, and
finally propagates the error. -/
theorem githubRetry_persistent_500 (respond : Nat → ReqOutcome)
    (ra : Nat → Nat) (m : Nat)
    (h : ∀ i, respond i = .failure (some 500)) :
    ∀ (r idx : Nat), r ≤ m →
    githubRetryRequest respond ra m r idx =
      ⟨r + 1, (List.range r).map (fun j => 2 ^ (m - r + j) * 1000),
        .failure (some 500)⟩ := by
  intro r
  induction r with
  | zero =>
    intro idx _
    unfold githubRetryRequest
    rw [h idx]
    simp
  | succ r2 ih =>
    intro idx hle
    unfold githubRetryRequest
    rw [h idx]
    simp only [Option.some.injEq, reduceIte, ih (idx + 1) (by omega)]
    refine congrArg (fun l => RetryTrace.mk (r2 + 1 + 1) l (.failure (some 500))) ?_
    rw [List.range_succ_eq_map, List.map_cons, List.map_map]
    refine congrArg₂ List.cons (by simp) ?_
    refine List.map_congr_left ?_
    intro j hj
    have hx : m - (r2 + 1) + (j + 1) = m - r2 + j := by omega
    simp [Function.comp, Nat.succ_eq_add_one, hx]

/-- Under a persistently 5xx-failing request function the Crunchbase client
behaves identically. -/
theorem crunchbaseRetry_persistent_500 (respond : Nat → ReqOutcome)
    (ra : Nat → Nat) (m : Nat)
    (h : ∀ i, respond i = .failure (some 500)) :
    ∀ (r idx : Nat), r ≤ m →
    crunchbaseRetryRequest respond ra m r idx =
      ⟨r + 1, (List.range r).map (fun j => 2 ^ (m - r + j) * 1000),
        .failure (some 500)⟩ := by
  intro r
  induction r with
  | zero =>
    intro idx _
    unfold crunchbaseRetryRequest
    rw [h idx]
    simp
  | succ r2 ih =>
    intro idx hle
    unfold crunchbaseRetryRequest
    rw [h idx]
    simp only [Option.some.injEq, reduceIte, ih (idx + 1) (by omega)]
    refine congrArg (fun l => RetryTrace.mk (r2 + 1 + 1) l (.failure (some 500))) ?_
    rw [List.range_succ_eq_map, List.map_cons, List.map_map]
    refine congrArg₂ List.cons (by simp) ?_
    refine List.map_congr_left ?_
    intro j hj
    have hx : m - (r2 + 1) + (j + 1) = m - r2 + j := by omega
    simp [Function.comp, Nat.succ_eq_add_one, hx]

/-- Claim C4: both retrying clients issue the underlying request exactly once
when the response status is 404 (no retry, no sleep), and under a persistent
500 they re-issue it, sleeping 2 ^ (maxRetries - remaining) * 1000 ms before
each retry — that is, 2 ^ j * 1000 before the j-th retry — until the budget
maxRetries (config default 3) is exhausted, then propagate the error. -/
theorem retry_skips_404_and_backs_off_on_500 :
    (∀ (respond : Nat → ReqOutcome) (ra : Nat → Nat) (m r idx : Nat),
      respond idx = .failure (some 404) →
      githubRetryRequest respond ra m r idx = ⟨1, [], .failure (some 404)⟩)
    ∧ (∀ (respond : Nat → ReqOutcome) (ra : Nat → Nat) (m r idx : Nat),
      respond idx = .failure (some 404) →
      crunchbaseRetryRequest respond ra m r idx = ⟨1, [], .failure (some 404)⟩)
    ∧ (∀ (respond : Nat → ReqOutcome) (ra : Nat → Nat) (m idx : Nat),
      (∀ i, respond i = .failure (some 500)) →
      githubRetryRequest respond ra m m idx =
        ⟨m + 1, (List.range m).map (fun j => 2 ^ j * 1000), .failure (some 500)⟩)
    ∧ (∀ (respond : Nat → ReqOutcome) (ra : Nat → Nat) (m idx : Nat),
      (∀ i, respond i = .failure (some 500)) →
      crunchbaseRetryRequest respond ra m m idx =
        ⟨m + 1, (List.range m).map (fun j => 2 ^ j * 1000), .failure (some 500)⟩) := by
  refine ⟨?_, ?_, ?_, ?_⟩
  · intro respond ra m r idx h
    cases r with
    | zero =>
      unfold githubRetryRequest
      rw [h]
    | succ r2 =>
      unfold githubRetryRequest
      rw [h]
      simp
  · intro respond ra m r idx h
    cases r with
    | zero =>
      unfold crunchbaseRetryRequest
      rw [h]
    | succ r2 =>
      unfold crunchbaseRetryRequest
      rw [h]
      simp
  · intro respond ra m idx h
    have := githubRetry_persistent_500 respond ra m h m idx (Nat.le_refl m)
    rw [this]
    refine congrArg (fun l => RetryTrace.mk (m + 1) l (.failure (some 500))) ?_
    refine List.map_congr_left ?_
    intro j hj
    have : m - m + j = j := by omega
    rw [this]
  · intro respond ra m idx h
    have := crunchbaseRetry_persistent_500 respond ra m h m idx (Nat.le_refl m)
    rw [this]
    refine congrArg (fun l => RetryTrace.mk (m + 1) l (.failure (some 500))) ?_
    refine List.map_congr_left ?_
    intro j hj
    have : m - m + j = j := by omega
    rw [this]

/-- Witness for C4: with the default budget 3, a constant-404 request runs
once in both clients, and a constant-500 request runs four times with sleeps
of 1000, 2000 and 4000 ms before the three retries. -/
theorem retry_skips_404_and_backs_off_on_500_witness :
    githubRetryRequest (fun _ => .failure (some 404)) (fun _ => 60)
      configMaxRetries configMaxRetries 0 = ⟨1, [], .failure (some 404)⟩
    ∧ crunchbaseRetryRequest (fun _ => .failure (some 404)) (fun _ => 5)
      configMaxRetries configMaxRetries 0 = ⟨1, [], .failure (some 404)⟩
    ∧ githubRetryRequest (fun _ => .failure (some 500)) (fun _ => 60)
      configMaxRetries configMaxRetries 0 =
        ⟨4, [1000, 2000, 4000], .failure (some 500)⟩
    ∧ crunchbaseRetryRequest (fun _ => .failure (some 500)) (fun _ => 5)
      configMaxRetries configMaxRetries 0 =
        ⟨4, [1000, 2000, 4000], .failure (some 500)⟩ := by
  have h404g := retry_skips_404_and_backs_off_on_500.1
    (fun _ => .failure (some 404)) (fun _ => 60) configMaxRetries configMaxRetries 0 rfl
  have h404c := retry_skips_404_and_backs_off_on_500.2.1
    (fun _ => .failure (some 404)) (fun _ => 5) configMaxRetries configMaxRetries 0 rfl
  have h500g := retry_skips_404_and_backs_off_on_500.2.2.1
    (fun _ => .failure (some 500)) (fun _ => 60) configMaxRetries 0 (fun _ => rfl)
  have h500c := retry_skips_404_and_backs_off_on_500.2.2.2
    (fun _ => .failure (some 500)) (fun _ => 5) configMaxRetries 0 (fun _ => rfl)
  refine ⟨h404g, h404c, ?_, ?_⟩
  · rw [h500g]
    decide
  · rw [h500c]
    decide

/-- Witness for C3: the dataset where a person reuses the startup id s1
fails with the duplicate-id error, and the dataset whose only relationship
starts at the unknown id ghost fails with the unknown-source error. -/
theorem parse_fails_fast_on_duplicates_and_dangling_witness :
    (∃ x, 2 ≤ (allIds dupSeed).count x ∧
      parseGraphData dupSeed = .error ("Duplicate node ID: " ++ x))
    ∧ parseGraphData dangSeed =
        .error ("Edge references unknown source node: " ++ "ghost") := by
  constructor
  · exact parse_fails_fast_on_duplicates_and_dangling.1 dupSeed (by decide)
  · have h := (parse_fails_fast_on_duplicates_and_dangling.2 dangSeed 0
      (by decide) (by decide) (by intro j hj hjk; omega)).1 (by decide)
    simpa [dangSeed] using h

/-! ## Theorems about the graph query engine -/

/-- Membership in the insertion-ordered id set after one add. -/
theorem mem_insertId (ids : List String) (x y : String) :
    y ∈ insertId ids x ↔ y ∈ ids ∨ y = x := by
  unfold insertId
  by_cases h : ids.contains x = true
  · simp only [h, if_true]
    constructor
    · exact Or.inl
    · rintro (hy | hy)
      · exact hy
      · exact hy ▸ list_contains_iff_mem.mp h
  · simp only [h, Bool.false_eq_true, if_false, List.mem_append, List.mem_singleton]

/-- The id set never loses elements through an add. -/
theorem mem_insertId_of_mem (ids : List String) (x y : String)
    (h : y ∈ ids) : y ∈ insertId ids x :=
  (mem_insertId ids x y).mpr (Or.inl h)

/-- The id set built by the neighbor fold holds exactly the opposite
endpoints of the edges touching the node: a target whose source is the node,
or a source whose target (but not source) is the node. -/
theorem mem_connectedIds (nodeId : String) (edges : List GraphEdge) (x : String) :
    x ∈ connectedIds nodeId edges ↔
      ∃ e ∈ edges, (e.source = nodeId ∧ e.target = x)
        ∨ (¬ e.source = nodeId ∧ e.target = nodeId ∧ e.source = x) := by
  have haux : ∀ (es : List GraphEdge) (acc : List String),
      x ∈ es.foldl (fun acc edge =>
        if edge.source == nodeId then insertId acc edge.target
        else if edge.target == nodeId then insertId acc edge.source
        else acc) acc
      ↔ x ∈ acc ∨ ∃ e ∈ es, (e.source = nodeId ∧ e.target = x)
        ∨ (¬ e.source = nodeId ∧ e.target = nodeId ∧ e.source = x) := by
    intro es
    induction es with
    | nil => intro acc; simp
    | cons e rest ih =>
      intro acc
      rw [List.foldl_cons, List.exists_mem_cons_iff]
      by_cases h1 : e.source = nodeId
      · have hb1 : (e.source == nodeId) = true := by simp [h1]
        rw [hb1]
        simp only [if_true]
        rw [ih (insertId acc e.target), mem_insertId]
        constructor
        · rintro ((hy | hy) | hy)
          · exact Or.inl hy
          · exact Or.inr (Or.inl (Or.inl ⟨h1, hy.symm⟩))
          · exact Or.inr (Or.inr hy)
        · rintro (hy | ((⟨hs, ht⟩ | ⟨hs, ht, hsx⟩) | hy))
          · exact Or.inl (Or.inl hy)
          · exact Or.inl (Or.inr ht.symm)
          · exact absurd h1 hs
          · exact Or.inr hy
      · have hb1 : (e.source == nodeId) = false := by
          simp [h1]
        rw [hb1]
        simp only [Bool.false_eq_true, if_false]
        by_cases h2 : e.target = nodeId
        · have hb2 : (e.target == nodeId) = true := by simp [h2]
          rw [hb2]
          simp only [if_true]
          rw [ih (insertId acc e.source), mem_insertId]
          constructor
          · rintro ((hy | hy) | hy)
            · exact Or.inl hy
            · exact Or.inr (Or.inl (Or.inr ⟨h1, h2, hy.symm⟩))
            · exact Or.inr (Or.inr hy)
          · rintro (hy | ((⟨hs, ht⟩ | ⟨hs, ht, hsx⟩) | hy))
            · exact Or.inl (Or.inl hy)
            · exact absurd hs h1
            · exact Or.inl (Or.inr hsx.symm)
            · exact Or.inr hy
        · have hb2 : (e.target == nodeId) = false := by
            simp [h2]
          rw [hb2]
          simp only [Bool.false_eq_true, if_false]
          rw [ih acc]
          constructor
          · rintro (hy | hy)
            · exact Or.inl hy
            · exact Or.inr (Or.inr hy)
          · rintro (hy | ((⟨hs, ht⟩ | ⟨hs, ht, hsx⟩) | hy))
            · exact Or.inl hy
            · exact absurd hs h1
            · exact absurd ht h2
            · exact Or.inr hy
  have := haux edges []
  simpa [connectedIds] using this

/-- Membership in a neighbor list. -/
theorem mem_getNeighbors (nodeId : String) (nodes : List GraphNode)
    (edges : List GraphEdge) (n : GraphNode) :
    n ∈ getNeighbors nodeId nodes edges ↔
      n ∈ nodes ∧ n.id ∈ connectedIds nodeId edges := by
  unfold getNeighbors
  rw [List.mem_filter]
  constructor
  · rintro ⟨h1, h2⟩
    exact ⟨h1, list_contains_iff_mem.mp h2⟩
  · rintro ⟨h1, h2⟩
    exact ⟨h1, list_contains_iff_mem.mpr h2⟩

/-- Claim C8 counterexample: with the single node b and the single edge
a → b, the node b lies in getNeighbors of a, yet no node with id a lies in
getNeighbors of b — the claimed symmetry fails when no node carries id a. -/
theorem getNeighbors_symmetric_counterexample :
    soloB ∈ getNeighbors "a" [soloB] soloEdges
    ∧ ∀ n ∈ getNeighbors "b" [soloB] soloEdges, ¬ n.id = "a" := by
  decide

/-- Claim C8 as amended: for nodes na and nb over the same node and edge
lists, with na present in the node list, if nb lies in getNeighbors of na.id
then na lies in getNeighbors of nb.id. -/
theorem getNeighbors_symmetric (nodes : List GraphNode)
    (edges : List GraphEdge) (na nb : GraphNode) (hna : na ∈ nodes)
    (hmem : nb ∈ getNeighbors na.id nodes edges) :
    na ∈ getNeighbors nb.id nodes edges := by
  rw [mem_getNeighbors] at hmem ⊢
  obtain ⟨hnb, hcid⟩ := hmem
  rw [mem_connectedIds] at hcid
  rw [mem_connectedIds]
  refine ⟨hna, ?_⟩
  obtain ⟨e, he, hcase⟩ := hcid
  refine ⟨e, he, ?_⟩
  rcases hcase with ⟨hsrc, htgt⟩ | ⟨hne, htgt, hsrc⟩
  · by_cases hsb : e.source = nb.id
    · exact Or.inl ⟨hsb, by rw [htgt, ← hsb, hsrc]⟩
    · exact Or.inr ⟨hsb, htgt, hsrc⟩
  · exact Or.inl ⟨hsrc, htgt⟩

/-- Witness for the amended C8: in the two-node graph with edge a → b, b is
a neighbor of a and, a being present, a is a neighbor of b. -/
theorem getNeighbors_symmetric_witness :
    soloA ∈ getNeighbors soloB.id [soloA, soloB] soloEdges :=
  getNeighbors_symmetric [soloA, soloB] soloEdges soloA soloB
    (by decide) (by decide)

/-- The push loop changes nothing when every node of the lookup list already
has its id among the accumulated nodes. -/
theorem addPersons_id_of_covering (all : List GraphNode) (pids : List String)
    (acc : List GraphNode)
    (hsub : ∀ x ∈ all, ∃ y ∈ acc, y.id = x.id) :
    addPersons all pids acc = acc := by
  induction pids with
  | nil => rfl
  | cons pid rest ih =>
    unfold addPersons
    cases hf : findNodeById all pid with
    | none => exact ih
    | some node =>
      have hm : node ∈ all := List.mem_of_find?_eq_some hf
      obtain ⟨y, hy, hyid⟩ := hsub node hm
      have hfound : (acc.find? (fun n => n.id == node.id)).isSome = true := by
        rw [List.find?_isSome]
        exact ⟨y, hy, by simp [hyid]⟩
      simp only [hfound, if_true]
      exact ih

/-- Claim C7: filterGraph with empty criteria — tag and stage lists absent or
empty, search term absent or blank — returns the input graph unchanged, for
every graph satisfying the referential invariant that edge endpoints resolve
to nodes. -/
theorem filter_empty_criteria_is_identity (data : GraphData)
    (criteria : FilterCriteria) (hc : emptyCriteria criteria)
    (hwf : edgesResolve data) :
    filterGraph data criteria = data := by
  obtain ⟨h1, h2, h3⟩ := hc
  have e1 : filterByTags criteria data.nodes = data.nodes := by
    rcases h1 with h | h <;> simp [filterByTags, h]
  have e2 : filterByStages criteria data.nodes = data.nodes := by
    rcases h2 with h | h <;> simp [filterByStages, h]
  have e3 : filterBySearch criteria data.nodes = data.nodes := by
    rcases h3 with h | ⟨t, ht, htr⟩
    · simp [filterBySearch, h]
    · simp [filterBySearch, ht, htr]
  have hnodes : filterBySearch criteria
      (filterByStages criteria (filterByTags criteria data.nodes)) = data.nodes := by
    rw [e1, e2, e3]
  have hedges : data.edges.filter (fun edge =>
      (data.nodes.map GraphNode.id).contains edge.source
      && (data.nodes.map GraphNode.id).contains edge.target) = data.edges := by
    apply List.filter_eq_self.mpr
    intro e he
    have hr := hwf e he
    rw [list_contains_iff_mem.mpr hr.1, list_contains_iff_mem.mpr hr.2]
    rfl
  unfold filterGraph
  simp only [hnodes]
  by_cases hcl : (criteria.domainTags.isSome || criteria.stages.isSome) = true
  · simp only [hcl, if_true]
    have hfinal : addPersons data.nodes
        (collectConnected data.nodes (data.nodes.map GraphNode.id) data.edges)
        data.nodes = data.nodes := by
      apply addPersons_id_of_covering
      intro x hx
      exact ⟨x, hx, rfl⟩
    simp only [hfinal, hedges]
  · simp only [hcl, Bool.false_eq_true, if_false, hedges]

/-- Witness for C7: on the spec example graph, criteria with an empty stage
list and a whitespace search term change nothing. -/
theorem filter_empty_criteria_is_identity_witness :
    filterGraph exGraph ⟨none, some [], some "   "⟩ = exGraph :=
  filter_empty_criteria_is_identity exGraph ⟨none, some [], some "   "⟩
    ⟨Or.inl rfl, Or.inr rfl, Or.inr ⟨"   ", rfl, by decide⟩⟩
    (by intro e he; fin_cases he <;> exact ⟨by decide, by decide⟩)

/-- Claim C6 counterexample: with a present-but-empty domain-tag list and
search term acme, filterGraph keeps the person bob although the name Bob
does not contain acme — the closure-repair pass still runs, so the claimed
equality with pure name filtering fails for present-but-empty criteria. -/
theorem filter_search_empty_tags_counterexample :
    bobNode ∈ (filterGraph acmeGraph ⟨some [], none, some "acme"⟩).nodes
    ∧ strIncludes (jsToLower bobNode.name) (jsTrim (jsToLower "acme")) = false := by
  decide

/-- Claim C6 as amended: when the domain-tag and stage criteria are absent
(not merely empty) and the search term is non-blank, filterGraph keeps
exactly the nodes — organizations and people alike — whose name contains the
lower-cased trimmed term, with no closure-repair pass. -/
theorem filter_search_only_keeps_name_matches (data : GraphData)
    (term : String) (h : 0 < (jsTrim term).length) :
    (filterGraph data ⟨none, none, some term⟩).nodes
      = data.nodes.filter (searchPred (jsTrim (jsToLower term))) := by
  unfold filterGraph
  simp [filterByTags, filterByStages, filterBySearch, h]

/-- Witness for the amended C6: searching acme in the acme graph keeps
exactly the acme organization. -/
theorem filter_search_only_keeps_name_matches_witness :
    0 < (jsTrim "acme").length
    ∧ (filterGraph acmeGraph ⟨none, none, some "acme"⟩).nodes = [acmeNode] := by
  constructor
  · decide
  · rw [filter_search_only_keeps_name_matches acmeGraph "acme" (by decide)]
    decide

/-- Membership after the domain-tag pass. -/
theorem mem_filterByTags (criteria : FilterCriteria) (nodes : List GraphNode)
    (n : GraphNode) :
    n ∈ filterByTags criteria nodes ↔ n ∈ nodes ∧ tagGate criteria n = true := by
  unfold filterByTags tagGate
  cases criteria.domainTags with
  | none => simp
  | some tags =>
    by_cases h : 0 < tags.length
    · simp [h, List.mem_filter]
    · simp [h]

/-- Membership after the stage pass. -/
theorem mem_filterByStages (criteria : FilterCriteria) (nodes : List GraphNode)
    (n : GraphNode) :
    n ∈ filterByStages criteria nodes ↔ n ∈ nodes ∧ stageGate criteria n = true := by
  unfold filterByStages stageGate
  cases criteria.stages with
  | none => simp
  | some stages =>
    by_cases h : 0 < stages.length
    · simp [h, List.mem_filter]
    · simp [h]

/-- Membership after the search pass. -/
theorem mem_filterBySearch (criteria : FilterCriteria) (nodes : List GraphNode)
    (n : GraphNode) :
    n ∈ filterBySearch criteria nodes ↔ n ∈ nodes ∧ searchGate criteria n = true := by
  unfold filterBySearch searchGate
  cases criteria.searchTerm with
  | none => simp
  | some term =>
    by_cases h : 0 < (jsTrim term).length
    · simp [h, List.mem_filter]
    · simp [h]

/-- Membership after the three sequential passes is the conjunction of the
three gates. -/
theorem mem_filterPasses (criteria : FilterCriteria) (nodes : List GraphNode)
    (n : GraphNode) :
    n ∈ filterBySearch criteria
        (filterByStages criteria (filterByTags criteria nodes))
    ↔ n ∈ nodes ∧ nodeMatches criteria n = true := by
  rw [mem_filterBySearch, mem_filterByStages, mem_filterByTags]
  unfold nodeMatches
  constructor
  · rintro ⟨⟨⟨h1, h2⟩, h3⟩, h4⟩
    exact ⟨h1, by simp [h2, h3, h4]⟩
  · rintro ⟨h1, h2⟩
    simp only [Bool.and_eq_true] at h2
    exact ⟨⟨⟨h1, h2.1.1⟩, h2.1.2⟩, h2.2⟩

/-- When a non-empty tag or stage criterion is active, no person passes the
gates. -/
theorem nodeMatches_false_of_person (criteria : FilterCriteria)
    (hactive : (∃ l, criteria.domainTags = some l ∧ l ≠ [])
      ∨ (∃ l, criteria.stages = some l ∧ l ≠ []))
    (n : GraphNode) (hp : n.type = NodeType.person) :
    nodeMatches criteria n = false := by
  obtain ⟨p, hd⟩ : ∃ p, n.data = .person p := by
    cases hnd : n.data with
    | startup s => rw [GraphNode.type, hnd] at hp; cases hp
    | person p => exact ⟨p, rfl⟩
  unfold nodeMatches
  rcases hactive with ⟨l, hl, hne⟩ | ⟨l, hl, hne⟩
  · have hlen : 0 < l.length := List.length_pos.mpr hne
    have : tagGate criteria n = false := by
      unfold tagGate
      rw [hl]
      simp only [hlen, if_true]
      unfold tagPred
      rw [hd]
    simp [this]
  · have hlen : 0 < l.length := List.length_pos.mpr hne
    have : stageGate criteria n = false := by
      unfold stageGate
      rw [hl]
      simp only [hlen, if_true]
      unfold stagePred
      rw [hd]
    simp [this]

/-- A successful findNodeById returns a member of the list carrying the
requested id. -/
theorem findNodeById_id (nodes : List GraphNode) (i : String) (n : GraphNode)
    (h : findNodeById nodes i = some n) : n.id = i ∧ n ∈ nodes := by
  unfold findNodeById at h
  exact ⟨by simpa using List.find?_some h, List.mem_of_find?_eq_some h⟩

/-- Under distinct node ids, findNodeById at the id of a member returns that
member. -/
theorem findNodeById_of_mem (nodes : List GraphNode)
    (hnodup : (nodes.map GraphNode.id).Nodup) (n : GraphNode) (hm : n ∈ nodes) :
    findNodeById nodes n.id = some n := by
  induction nodes with
  | nil => cases hm
  | cons m rest ih =>
    simp only [List.map_cons, List.nodup_cons] at hnodup
    unfold findNodeById
    rw [List.find?_cons]
    rcases List.mem_cons.mp hm with h | h
    · subst h
      simp
    · have hne : (m.id == n.id) = false := by
        have : ¬ m.id = n.id := by
          intro hc
          exact hnodup.1 (hc ▸ List.mem_map_of_mem GraphNode.id h)
        simp [this]
      rw [hne]
      exact ih hnodup.2 h

/-- Under distinct node ids, two members sharing an id coincide. -/
theorem node_eq_of_id_eq (nodes : List GraphNode)
    (hnodup : (nodes.map GraphNode.id).Nodup) (a b : GraphNode)
    (ha : a ∈ nodes) (hb : b ∈ nodes) (hid : a.id = b.id) : a = b :=
  List.inj_on_of_nodup_map hnodup ha hb hid

/-- Membership through a fold whose step admits a per-element membership
description. -/
theorem foldl_mem_iff {α β : Type} (f : List α → β → List α) (C : β → α → Prop)
    (hstep : ∀ acc e y, y ∈ f acc e ↔ y ∈ acc ∨ C e y) :
    ∀ (es : List β) (acc : List α) (y : α),
    y ∈ es.foldl f acc ↔ y ∈ acc ∨ ∃ e ∈ es, C e y := by
  intro es
  induction es with
  | nil => intro acc y; simp
  | cons e rest ih =>
    intro acc y
    rw [List.foldl_cons, ih (f acc e) y, hstep acc e y, List.exists_mem_cons_iff]
    tauto

/-- Membership after one direction of the closure-repair collection. -/
theorem mem_sideCollect (allNodes : List GraphNode) (cond : Bool)
    (endpoint : String) (acc : List String) (y : String) :
    y ∈ sideCollect allNodes cond endpoint acc ↔
      y ∈ acc ∨ (cond = true ∧ ∃ t, findNodeById allNodes endpoint = some t
        ∧ t.type = .person ∧ t.id = y) := by
  unfold sideCollect
  cases cond with
  | false => simp
  | true =>
    cases hf : findNodeById allNodes endpoint with
    | none => simp
    | some t =>
      by_cases ht : t.type = NodeType.person
      · have hb : (t.type == NodeType.person) = true := by simp [ht]
        simp only [hb, eq_self_iff_true, if_true, mem_insertId]
        constructor
        · rintro (h | h)
          · exact Or.inl h
          · exact Or.inr ⟨trivial, t, rfl, ht, h.symm⟩
        · rintro (h | ⟨-, t2, ht2, htp, hty⟩)
          · exact Or.inl h
          · simp only [Option.some.injEq] at ht2
            exact Or.inr (by rw [← ht2] at hty; exact hty.symm)
      · have hb : (t.type == NodeType.person) = false := by simp [ht]
        simp only [hb, eq_self_iff_true, if_true, Bool.false_eq_true, if_false]
        constructor
        · exact Or.inl
        · rintro (h | ⟨-, t2, ht2, htp, hty⟩)
          · exact h
          · simp only [Option.some.injEq] at ht2
            exact absurd (ht2 ▸ htp) ht

/-- Membership after the per-edge body of the closure-repair collection. -/
theorem mem_collectStep (allNodes : List GraphNode) (filteredIds : List String)
    (acc : List String) (e : GraphEdge) (y : String) :
    y ∈ collectStep allNodes filteredIds acc e ↔
      y ∈ acc ∨ personContrib allNodes filteredIds e y := by
  unfold collectStep personContrib
  rw [mem_sideCollect, mem_sideCollect]
  exact or_assoc

/-- Membership in the closure-repair id set: exactly the per-edge
contributions over the original edge list. -/
theorem mem_collectConnected (allNodes : List GraphNode)
    (filteredIds : List String) (edges : List GraphEdge) (y : String) :
    y ∈ collectConnected allNodes filteredIds edges ↔
      ∃ e ∈ edges, personContrib allNodes filteredIds e y := by
  unfold collectConnected
  rw [foldl_mem_iff (collectStep allNodes filteredIds)
    (personContrib allNodes filteredIds)
    (mem_collectStep allNodes filteredIds) edges [] y]
  simp

/-- Adding one id preserves distinctness of the id set. -/
theorem insertId_nodup (ids : List String) (x : String) (h : ids.Nodup) :
    (insertId ids x).Nodup := by
  unfold insertId
  by_cases hc : ids.contains x = true
  · simp only [hc, if_true]
    exact h
  · have hx : x ∉ ids := fun hm => hc (list_contains_iff_mem.mpr hm)
    simp only [hc, Bool.false_eq_true, if_false]
    rw [List.nodup_append]
    refine ⟨h, List.nodup_singleton x, ?_⟩
    intro a ha hax
    simp only [List.mem_singleton] at hax
    exact hx (hax ▸ ha)

/-- One direction of the closure-repair collection preserves distinctness. -/
theorem sideCollect_nodup (allNodes : List GraphNode) (cond : Bool)
    (endpoint : String) (acc : List String) (h : acc.Nodup) :
    (sideCollect allNodes cond endpoint acc).Nodup := by
  unfold sideCollect
  cases cond with
  | false => simpa using h
  | true =>
    simp only [if_true]
    cases findNodeById allNodes endpoint with
    | none => exact h
    | some t =>
      by_cases ht : (t.type == NodeType.person) = true
      · simp only [ht, if_true]
        exact insertId_nodup _ _ h
      · have ht2 : (t.type == NodeType.person) = false := by
          rwa [Bool.not_eq_true] at ht
        simp only [ht2, Bool.false_eq_true, if_false]
        exact h

/-- The closure-repair id set is duplicate-free. -/
theorem collectConnected_nodup (allNodes : List GraphNode)
    (filteredIds : List String) (edges : List GraphEdge) :
    (collectConnected allNodes filteredIds edges).Nodup := by
  unfold collectConnected
  have haux : ∀ (es : List GraphEdge) (acc : List String), acc.Nodup →
      (es.foldl (collectStep allNodes filteredIds) acc).Nodup := by
    intro es
    induction es with
    | nil => intro acc h; simpa using h
    | cons e rest ih =>
      intro acc h
      rw [List.foldl_cons]
      refine ih _ ?_
      unfold collectStep
      exact sideCollect_nodup _ _ _ _ (sideCollect_nodup _ _ _ _ h)
  exact haux edges [] List.nodup_nil

/-- Membership after the closure-repair push loop, under distinct node ids
and a duplicate-free id set: the accumulated nodes, plus each node resolved
from a collected id whose id no accumulated node carries. -/
theorem mem_addPersons (all : List GraphNode)
    (hnodup : (all.map GraphNode.id).Nodup) :
    ∀ (pids : List String) (acc : List GraphNode), pids.Nodup →
    ∀ x, x ∈ addPersons all pids acc ↔
      x ∈ acc ∨ ∃ pid ∈ pids, findNodeById all pid = some x
        ∧ ∀ y ∈ acc, ¬ y.id = x.id := by
  intro pids
  induction pids with
  | nil =>
    intro acc hnd x
    simp [addPersons]
  | cons pid rest ih =>
    intro acc hnd x
    have hnd2 : pid ∉ rest ∧ rest.Nodup := by
      rw [List.nodup_cons] at hnd
      exact hnd
    unfold addPersons
    cases hf : findNodeById all pid with
    | none =>
      rw [ih acc hnd2.2 x, List.exists_mem_cons_iff]
      constructor
      · rintro (h | h)
        · exact Or.inl h
        · exact Or.inr (Or.inr h)
      · rintro (h | (⟨hfx, hax⟩ | h))
        · exact Or.inl h
        · rw [hf] at hfx
          cases hfx
        · exact Or.inr h
    | some node =>
      have hni := findNodeById_id all pid node hf
      by_cases hin : (acc.find? (fun n => n.id == node.id)).isSome = true
      · simp only [hin, if_true]
        rw [ih acc hnd2.2 x, List.exists_mem_cons_iff]
        obtain ⟨z, hz, hzid⟩ : ∃ z ∈ acc, z.id = node.id := by
          rw [List.find?_isSome] at hin
          obtain ⟨z, hz, hzb⟩ := hin
          exact ⟨z, hz, by simpa using hzb⟩
        constructor
        · rintro (h | h)
          · exact Or.inl h
          · exact Or.inr (Or.inr h)
        · rintro (h | (⟨hfx, hax⟩ | h))
          · exact Or.inl h
          · rw [hf] at hfx
            simp only [Option.some.injEq] at hfx
            subst hfx
            exact absurd hzid (hax z hz)
          · exact Or.inr h
      · have hin2 : ∀ y ∈ acc, ¬ y.id = node.id := by
          intro y hy hc
          exact hin (by rw [List.find?_isSome]; exact ⟨y, hy, by simp [hc]⟩)
        have hfalse : (acc.find? (fun n => n.id == node.id)).isSome = false := by
          rwa [Bool.not_eq_true] at hin
        simp only [hfalse, Bool.false_eq_true, if_false]
        rw [ih (acc ++ [node]) hnd2.2 x, List.exists_mem_cons_iff]
        constructor
        · rintro (h | ⟨pid2, hpid2, hf2, hall2⟩)
          · rcases List.mem_append.mp h with h2 | h2
            · exact Or.inl h2
            · simp only [List.mem_singleton] at h2
              subst h2
              exact Or.inr (Or.inl ⟨hf, hin2⟩)
          · refine Or.inr (Or.inr ⟨pid2, hpid2, hf2, ?_⟩)
            intro y hy
            exact hall2 y (List.mem_append.mpr (Or.inl hy))
        · rintro (h | (⟨hfx, hax⟩ | ⟨pid2, hpid2, hf2, hall2⟩))
          · exact Or.inl (List.mem_append.mpr (Or.inl h))
          · rw [hf] at hfx
            simp only [Option.some.injEq] at hfx
            subst hfx
            exact Or.inl (List.mem_append.mpr (Or.inr (by simp)))
          · refine Or.inr ⟨pid2, hpid2, hf2, ?_⟩
            intro y hy
            rcases List.mem_append.mp hy with h2 | h2
            · exact hall2 y h2
            · simp only [List.mem_singleton] at h2
              subst h2
              have hxid := (findNodeById_id all pid2 x hf2).1
              rw [hni.1, hxid]
              intro hc
              exact hnd2.1 (hc ▸ hpid2)

/-- The node list of the filtered graph when a tag or stage criterion is
present: the filter passes followed by the closure-repair push loop. -/
theorem filterGraph_nodes_closure (data : GraphData) (criteria : FilterCriteria)
    (hcond : (criteria.domainTags.isSome || criteria.stages.isSome) = true) :
    (filterGraph data criteria).nodes =
      addPersons data.nodes
        (collectConnected data.nodes
          ((filterBySearch criteria
            (filterByStages criteria (filterByTags criteria data.nodes))).map
              GraphNode.id)
          data.edges)
        (filterBySearch criteria
          (filterByStages criteria (filterByTags criteria data.nodes))) := by
  unfold filterGraph
  simp [hcond]

/-- Claim C1: with a non-empty domain-tag or stage list active, the filtered
node set consists exactly of the nodes passing the criteria — under an
active tag or stage criterion necessarily organizations — together with the
person nodes joined by an original edge to some node passing the criteria;
and on the spec example graph, filtering by domain tag AI keeps exactly
s1, s3 and the closure-repaired p1. -/
theorem filter_restricts_to_matching_orgs_and_repairs :
    (∀ (data : GraphData) (criteria : FilterCriteria),
      ((∃ l, criteria.domainTags = some l ∧ l ≠ [])
        ∨ (∃ l, criteria.stages = some l ∧ l ≠ [])) →
      (data.nodes.map GraphNode.id).Nodup →
      ∀ n, n ∈ (filterGraph data criteria).nodes ↔
        (n ∈ data.nodes ∧ nodeMatches criteria n = true)
        ∨ (n ∈ data.nodes ∧ n.type = NodeType.person
            ∧ ∃ m ∈ data.nodes, nodeMatches criteria m = true
              ∧ adjacentVia data.edges m.id n.id))
    ∧ (filterGraph exGraph ⟨some ["AI"], none, none⟩).nodes.map GraphNode.id
        = ["s1", "s3", "p1"] := by
  constructor
  · intro data criteria hactive hnodup n
    have hcond : (criteria.domainTags.isSome || criteria.stages.isSome) = true := by
      rcases hactive with ⟨l, hl, hne⟩ | ⟨l, hl, hne⟩ <;> rw [hl] <;> simp
    rw [filterGraph_nodes_closure data criteria hcond]
    set B := filterBySearch criteria
      (filterByStages criteria (filterByTags criteria data.nodes)) with hB
    have hmemB : ∀ x, x ∈ B ↔ x ∈ data.nodes ∧ nodeMatches criteria x = true := by
      intro x
      rw [hB]
      exact mem_filterPasses criteria data.nodes x
    have hfid : ∀ s, ((B.map GraphNode.id).contains s = true) ↔
        ∃ m, m ∈ data.nodes ∧ nodeMatches criteria m = true ∧ m.id = s := by
      intro s
      rw [list_contains_iff_mem, List.mem_map]
      constructor
      · rintro ⟨m, hm, hms⟩
        obtain ⟨h1, h2⟩ := (hmemB m).mp hm
        exact ⟨m, h1, h2, hms⟩
      · rintro ⟨m, h1, h2, hms⟩
        exact ⟨m, (hmemB m).mpr ⟨h1, h2⟩, hms⟩
    rw [mem_addPersons data.nodes hnodup _ B (collectConnected_nodup _ _ _) n]
    constructor
    · rintro (h | ⟨pid, hpid, hfind, hnotB⟩)
      · exact Or.inl ((hmemB n).mp h)
      · obtain ⟨hid, hmem⟩ := findNodeById_id data.nodes pid n hfind
        rw [mem_collectConnected] at hpid
        obtain ⟨e, he, hcontrib⟩ := hpid
        rcases hcontrib with ⟨hcs, t, htf, htp, hti⟩ | ⟨hct, t, htf, htp, hti⟩
        · obtain ⟨hts, htm⟩ := findNodeById_id data.nodes e.target t htf
          have htn : t = n :=
            node_eq_of_id_eq data.nodes hnodup t n htm hmem (by rw [hti, hid])
          obtain ⟨m, hm1, hm2, hm3⟩ := (hfid e.source).mp hcs
          refine Or.inr ⟨hmem, by rw [← htn]; exact htp,
            m, hm1, hm2, e, he, Or.inl ⟨hm3.symm, ?_⟩⟩
          rw [← hts, htn]
        · obtain ⟨hts, htm⟩ := findNodeById_id data.nodes e.source t htf
          have htn : t = n :=
            node_eq_of_id_eq data.nodes hnodup t n htm hmem (by rw [hti, hid])
          obtain ⟨m, hm1, hm2, hm3⟩ := (hfid e.target).mp hct
          refine Or.inr ⟨hmem, by rw [← htn]; exact htp,
            m, hm1, hm2, e, he, Or.inr ⟨hm3.symm, ?_⟩⟩
          rw [← hts, htn]
    · rintro (⟨h1, h2⟩ | ⟨h1, h2, m, hm1, hm2, hadjfull⟩)
      · exact Or.inl ((hmemB n).mpr ⟨h1, h2⟩)
      · obtain ⟨e, he, hadj⟩ := hadjfull
        have hnb : nodeMatches criteria n = false :=
          nodeMatches_false_of_person criteria hactive n h2
        have hfind : findNodeById data.nodes n.id = some n :=
          findNodeById_of_mem data.nodes hnodup n h1
        have hnotB : ∀ y ∈ B, ¬ y.id = n.id := by
          intro y hy hc
          obtain ⟨hy1, hy2⟩ := (hmemB y).mp hy
          have hyn : y = n := node_eq_of_id_eq data.nodes hnodup y n hy1 h1 hc
          rw [hyn, hnb] at hy2
          cases hy2
        refine Or.inr ⟨n.id, ?_, hfind, hnotB⟩
        rw [mem_collectConnected]
        refine ⟨e, he, ?_⟩
        rcases hadj with ⟨hsm, htn⟩ | ⟨htm, hsn⟩
        · refine Or.inl ⟨(hfid e.source).mpr ⟨m, hm1, hm2, hsm.symm⟩,
            n, ?_, h2, rfl⟩
          rw [htn]
          exact hfind
        · refine Or.inr ⟨(hfid e.target).mpr ⟨m, hm1, hm2, htm.symm⟩,
            n, ?_, h2, rfl⟩
          rw [hsn]
          exact hfind
  · decide

/-- Witness for C1: on the spec example graph with domain tag AI, the person
p1 — connected to the surviving organization s1 — lies in the filtered node
set, by the characterization. -/
theorem filter_restricts_to_matching_orgs_and_repairs_witness :
    (⟨"p1", .person exP1⟩ : GraphNode) ∈
      (filterGraph exGraph ⟨some ["AI"], none, none⟩).nodes :=
  (filter_restricts_to_matching_orgs_and_repairs.1 exGraph
    ⟨some ["AI"], none, none⟩ (Or.inl ⟨["AI"], rfl, by decide⟩) (by decide)
    ⟨"p1", .person exP1⟩).mpr (by decide)

/-! ## Theorems about the record mappers -/

/-- Claim C9 counterexample: an absent location maps to the string Unknown,
not the empty string, and an absent GitHub bio maps to GitHub user login,
not the empty string. -/
theorem mapper_empty_string_defaults_counterexample :
    (mapCrunchbaseToStartup 2024 orgNoText).location = "Unknown"
    ∧ ¬ (mapCrunchbaseToStartup 2024 orgNoText).location = ""
    ∧ (mapGitHubToPerson userNoBio).bio = "GitHub user octo"
    ∧ ¬ (mapGitHubToPerson userNoBio).bio = "" := by
  decide

/-- Claim C9 as amended: an absent description maps to the empty string, but
an absent location maps to Unknown and an absent GitHub bio maps to the
placeholder GitHub user login. -/
theorem mapper_text_field_defaults :
    (∀ (y : Nat) (org : CrunchbaseOrganization),
      org.properties.short_description = none →
        (mapCrunchbaseToStartup y org).description = "")
    ∧ (∀ (y : Nat) (org : CrunchbaseOrganization),
      org.properties.location_identifiers = none →
        (mapCrunchbaseToStartup y org).location = "Unknown")
    ∧ (∀ user : GitHubUser, user.bio = none →
        (mapGitHubToPerson user).bio = "GitHub user " ++ user.login) := by
  refine ⟨?_, ?_, ?_⟩
  · intro y org h
    simp [mapCrunchbaseToStartup, h]
  · intro y org h
    simp [mapCrunchbaseToStartup, h]
  · intro user h
    simp [mapGitHubToPerson, h]

/-- Witness for the amended C9: the record with every free-text field absent
maps to an empty description, the Unknown location, and the placeholder
GitHub bio. -/
theorem mapper_text_field_defaults_witness :
    (mapCrunchbaseToStartup 2024 orgNoText).description = ""
    ∧ (mapCrunchbaseToStartup 2024 orgNoText).location = "Unknown"
    ∧ (mapGitHubToPerson userNoBio).bio = "GitHub user " ++ "octo" :=
  ⟨mapper_text_field_defaults.1 2024 orgNoText rfl,
   mapper_text_field_defaults.2.1 2024 orgNoText rfl,
   mapper_text_field_defaults.2.2 userNoBio rfl⟩

end StartupGraph
